import Mathlib

/-!
Verification development for a Prisma example repository.

The repository consists of `src/server.js` (an example script issuing read
and write operations through a single `PrismaClient` handle) and
`src/prisma/schema.prisma` (the declared data model: User, Profile, Post,
Tag).  This file embeds both artifacts:

* the schema file is embedded as declarative data (`ModelDef`), so that
  claims about declared fields, optionality, uniqueness attributes and
  defaults become decidable facts;
* the states admitted by the schema are embedded as a `DB` of row lists
  together with the `Admissible` predicate generated by the schema's
  constraints (primary keys, `@unique` attributes, foreign keys);
* the write operations the script contains are embedded as state
  transformers that fail exactly where the underlying database's
  constraints would reject the statement;
* `server.js` itself is embedded statement by statement (`Stmt`,
  `moduleItems`), with a small-step scheduler capturing the promise
  semantics of calling `reads()` without `await`, and a denotational
  model of the `.catch(...).finally(...)` chain.
-/

namespace Prisma

/-! ### Schema embedding: `src/prisma/schema.prisma` as declarative data -/

inductive PType where
  | int
  | string
  | boolean
  | dateTime
deriving DecidableEq

inductive FType where
  | scalar (t : PType)
  | toOne (target : String)
  | toMany (target : String)
deriving DecidableEq

/-- One field declaration of a Prisma model, with the attributes used in
`schema.prisma`. -/
structure FieldDef where
  fname : String
  ftype : FType
  optional : Bool := false
  isId : Bool := false
  isUnique : Bool := false
  defaultAutoincrement : Bool := false
  defaultNow : Bool := false
  defaultBool : Option Bool := none
  isUpdatedAtAttr : Bool := false
  relFields : List String := []
  relReferences : List String := []
deriving DecidableEq

structure ModelDef where
  mname : String
  fields : List FieldDef
deriving DecidableEq

/-- `model User` of `schema.prisma`. -/
def userModel : ModelDef :=
  { mname := "User"
    fields :=
      [ { fname := "id", ftype := .scalar .int, isId := true, defaultAutoincrement := true }
      , { fname := "email", ftype := .scalar .string, isUnique := true }
      , { fname := "name", ftype := .scalar .string, optional := true }
      , { fname := "createdAt", ftype := .scalar .dateTime, defaultNow := true }
      , { fname := "updatedAt", ftype := .scalar .dateTime, isUpdatedAtAttr := true }
      , { fname := "posts", ftype := .toMany "Post" }
      , { fname := "profile", ftype := .toOne "Profile", optional := true } ] }

/-- `model Profile` of `schema.prisma`. -/
def profileModel : ModelDef :=
  { mname := "Profile"
    fields :=
      [ { fname := "id", ftype := .scalar .int, isId := true, defaultAutoincrement := true }
      , { fname := "bio", ftype := .scalar .string, optional := true }
      , { fname := "avatar", ftype := .scalar .string, optional := true }
      , { fname := "userId", ftype := .scalar .int, isUnique := true }
      , { fname := "user", ftype := .toOne "User", relFields := ["userId"],
          relReferences := ["id"] } ] }

/-- `model Post` of `schema.prisma`. -/
def postModel : ModelDef :=
  { mname := "Post"
    fields :=
      [ { fname := "id", ftype := .scalar .int, isId := true, defaultAutoincrement := true }
      , { fname := "title", ftype := .scalar .string }
      , { fname := "content", ftype := .scalar .string, optional := true }
      , { fname := "published", ftype := .scalar .boolean, defaultBool := some false }
      , { fname := "createdAt", ftype := .scalar .dateTime, defaultNow := true }
      , { fname := "updatedAt", ftype := .scalar .dateTime, isUpdatedAtAttr := true }
      , { fname := "authorId", ftype := .scalar .int }
      , { fname := "author", ftype := .toOne "User", relFields := ["authorId"],
          relReferences := ["id"] }
      , { fname := "tags", ftype := .toMany "Tag" } ] }

/-- `model Tag` of `schema.prisma`. -/
def tagModel : ModelDef :=
  { mname := "Tag"
    fields :=
      [ { fname := "id", ftype := .scalar .int, isId := true, defaultAutoincrement := true }
      , { fname := "name", ftype := .scalar .string, isUnique := true }
      , { fname := "posts", ftype := .toMany "Post" } ] }

def schemaModels : List ModelDef := [userModel, profileModel, postModel, tagModel]

/-- The first declared field of `m` named `n` (models declare field names once). -/
def findField (m : ModelDef) (n : String) : Option FieldDef :=
  m.fields.find? (fun f => f.fname == n)

def isScalarField (f : FieldDef) : Bool :=
  match f.ftype with
  | .scalar _ => true
  | _ => false

/-! ### Database states admitted by the schema -/

structure UserRow where
  id : Nat
  email : String
  name : Option String
  createdAt : Nat
  updatedAt : Nat
deriving DecidableEq

structure ProfileRow where
  id : Nat
  bio : Option String
  avatar : Option String
  userId : Nat
deriving DecidableEq

structure PostRow where
  id : Nat
  title : String
  content : Option String
  published : Bool
  createdAt : Nat
  updatedAt : Nat
  authorId : Nat
deriving DecidableEq

structure TagRow where
  id : Nat
  name : String
deriving DecidableEq

/-- A database state over the four declared tables, with the implicit
many-to-many join table between posts and tags. -/
structure DB where
  users : List UserRow
  profiles : List ProfileRow
  posts : List PostRow
  tags : List TagRow
  postTags : List (Nat × Nat)
deriving DecidableEq

/-- The states the schema admits: primary keys are unique
(`@id @default(autoincrement())`), `User.email`, `Profile.userId` and
`Tag.name` are `@unique`, and every foreign key references an existing
row (referential integrity enforced by the underlying database). -/
def Admissible (db : DB) : Prop :=
  (db.users.map UserRow.id).Nodup ∧
  (db.users.map UserRow.email).Nodup ∧
  (db.profiles.map ProfileRow.id).Nodup ∧
  (db.profiles.map ProfileRow.userId).Nodup ∧
  (∀ p ∈ db.profiles, ∃ u ∈ db.users, u.id = p.userId) ∧
  (db.posts.map PostRow.id).Nodup ∧
  (∀ p ∈ db.posts, ∃ u ∈ db.users, u.id = p.authorId) ∧
  (db.tags.map TagRow.id).Nodup ∧
  (db.tags.map TagRow.name).Nodup ∧
  (∀ pt ∈ db.postTags, (∃ p ∈ db.posts, p.id = pt.1) ∧ (∃ t ∈ db.tags, t.id = pt.2))

instance (db : DB) : Decidable (Admissible db) := by
  unfold Admissible; infer_instance

/-! ### Write operations

The script's write path (`writes` in `server.js`) issues `create`,
`create` with nested posts, and `createMany`.  Each is modelled as a
state transformer that fails exactly where MySQL would reject the
generated statement (duplicate value in a `@unique` column).  The
autoincremented primary key is modelled as a fresh value strictly above
every key in use; `now()` timestamps are an explicit parameter `t`. -/

inductive DbError where
  | uniqueConstraint
deriving DecidableEq

/-- A fresh autoincrement value: strictly larger than every id in use. -/
def freshId (ids : List Nat) : Nat := ids.foldr max 0 + 1

/-- `prisma.user.create({ data: { email, name } })`: rejected when the
`@unique` email is already present, otherwise appends a fresh row. -/
def createUser (db : DB) (email : String) (name : Option String) (t : Nat) :
    Except DbError (UserRow × DB) :=
  if db.users.any (fun u => u.email == email) then
    .error .uniqueConstraint
  else
    let u : UserRow := ⟨freshId (db.users.map UserRow.id), email, name, t, t⟩
    .ok (u, { db with users := db.users ++ [u] })

/-- A post row as built by a nested `posts.create` entry: the `published`
column takes its schema default `false` when the data carries no value. -/
def mkPost (id : Nat) (title : String) (content : Option String)
    (published : Option Bool) (authorId : Nat) (t : Nat) : PostRow :=
  ⟨id, title, content, published.getD false, t, t, authorId⟩

def insertPost (db : DB) (title : String) (content : Option String)
    (published : Option Bool) (authorId : Nat) (t : Nat) : DB :=
  let p := mkPost (freshId (db.posts.map PostRow.id)) title content published authorId t
  { db with posts := db.posts ++ [p] }

/-- `prisma.user.create({ data: { email, name, posts: { create: [...] } } })`:
create the user, then each nested post with the new user as author. -/
def createUserWithPosts (db : DB) (email : String) (name : Option String)
    (posts : List (String × Option String)) (t : Nat) : Except DbError DB :=
  match createUser db email name t with
  | .error e => .error e
  | .ok (u, db1) =>
      .ok (posts.foldl (fun acc pd => insertPost acc pd.1 pd.2 none u.id t) db1)

/-- `prisma.user.createMany({ data: [...] })`: each row is inserted in
order; a duplicate email anywhere rejects the statement. -/
def createManyUsers : DB → List (String × Option String) → Nat → Except DbError DB
  | db, [], _ => .ok db
  | db, r :: rs, t =>
      match createUser db r.1 r.2 t with
      | .error e => .error e
      | .ok (_, db1) => createManyUsers db1 rs t

/-- The write operations authored in `writes` of `server.js`. -/
inductive WriteOp where
  | createOne (email : String) (name : Option String)
  | createWithPosts (email : String) (name : Option String)
      (posts : List (String × Option String))
  | createManyRows (rows : List (String × Option String))
deriving DecidableEq

def applyWrite (db : DB) (t : Nat) : WriteOp → Except DbError DB
  | .createOne email name => (createUser db email name t).map (fun r => r.2)
  | .createWithPosts email name posts => createUserWithPosts db email name posts t
  | .createManyRows rows => createManyUsers db rows t

/-! ### Script embedding: `src/server.js`

Every client call in the script is a `DbOp` carrying the arguments the
source passes.  `Stmt` also has constructors for branching, try/catch and
retry loops, so that their absence from the embedded functions is a
checkable fact and not an artifact of the embedding. -/

/-- Arguments of the `findMany` call in `reads`. -/
structure FindManyArgs where
  wherePostsSomePublished : Bool
  includePosts : Bool
  includeProfile : Bool
  orderByCreatedAtDesc : Bool
  takeN : Nat
  skipN : Nat
deriving DecidableEq

inductive DbOp where
  | findUniqueUserByEmail (email : String)
  | findFirstUserByNameContains (s : String)
  | findManyUsers (args : FindManyArgs)
  | countUsersWithSomePublished
  | createOne (email : String) (name : Option String)
  | createWithPosts (email : String) (name : Option String)
      (posts : List (String × Option String))
  | createManyRows (rows : List (String × Option String))
  | disconnect
deriving DecidableEq

def DbOp.isWrite : DbOp → Bool
  | .createOne _ _ => true
  | .createWithPosts _ _ _ => true
  | .createManyRows _ => true
  | _ => false

inductive Stmt where
  | dbCall (client : String) (op : DbOp)
  | log (msg : String)
  | call (fn : String) (awaited : Bool)
  | branch (cond : String) (thenB elseB : List Stmt)
  | tryCatch (body handler : List Stmt)
  | retryLoop (body : List Stmt)

/-- Body of `async function reads()` (src/server.js lines 6-39), statement
by statement. -/
def readsStmts : List Stmt :=
  [ .dbCall "prisma" (.findUniqueUserByEmail "alice@example.com")
  , .log "User found:"
  , .dbCall "prisma" (.findFirstUserByNameContains "Alice")
  , .dbCall "prisma" (.findManyUsers
      { wherePostsSomePublished := true
        includePosts := true
        includeProfile := true
        orderByCreatedAtDesc := true
        takeN := 10
        skipN := 20 })
  , .dbCall "prisma" .countUsersWithSomePublished ]

/-- Body of `async function writes()` (src/server.js lines 41-74). -/
def writesStmts : List Stmt :=
  [ .dbCall "prisma" (.createOne "alice@example.com" (some "Alice Smith"))
  , .dbCall "prisma" (.createWithPosts "bob@example.com" (some "Bob Johnson")
      [ ("My First Post", some "Hello World!")
      , ("Second Post", some "Learning Prisma") ])
  , .dbCall "prisma" (.createManyRows
      [ ("user1@example.com", some "User 1")
      , ("user2@example.com", some "User 2") ]) ]

/-- Body of `async function main()`: `reads();` with no `await`. -/
def mainStmts : List Stmt := [.call "reads" false]

/-- Body of the `.finally` callback: `await prisma.$disconnect()`. -/
def finallyStmts : List Stmt := [.dbCall "prisma" .disconnect]

/-- A top-level item of the module `src/server.js`. -/
inductive TopLevel where
  | importFrom (module : String) (names : List String)
  | constClient (cname : String)
  | funcDef (fn : String) (body : List Stmt)
  | mainChain (callee : String) (catchRethrows : Bool) (finallyBody : List Stmt)

/-- `src/server.js` as a sequence of top-level items, in source order. -/
def moduleItems : List TopLevel :=
  [ .importFrom "@prisma/client" ["PrismaClient"]
  , .constClient "prisma"
  , .funcDef "reads" readsStmts
  , .funcDef "writes" writesStmts
  , .funcDef "main" mainStmts
  , .mainChain "main" true finallyStmts ]

/-- The database operations a straight-line statement list issues, in
order. -/
def dbTrace (l : List Stmt) : List DbOp :=
  l.filterMap (fun s =>
    match s with
    | .dbCall _ o => some o
    | _ => none)

/-- `true` when the list has no branch, try/catch or retry construct.  A
nested such construct would sit under a top-level one, so on a list where
this holds there is none at any depth. -/
def straightLine (l : List Stmt) : Bool :=
  l.all (fun s =>
    match s with
    | .branch _ _ _ => false
    | .tryCatch _ _ => false
    | .retryLoop _ => false
    | _ => true)

def usesClient (c : String) (s : Stmt) : Bool :=
  match s with
  | .dbCall c2 _ => c2 == c
  | _ => true

/-- Functions invoked by a statement list (top level; the embedded bodies
are straight-line). -/
def calledFns (l : List Stmt) : List String :=
  l.filterMap (fun s =>
    match s with
    | .call f _ => some f
    | _ => none)

/-- `true` when some statement awaits a call of `f`. -/
def awaitsCallOf (f : String) (l : List Stmt) : Bool :=
  l.any (fun s =>
    match s with
    | .call g aw => g == f && aw
    | _ => false)

/-- Whether `main` awaits the promise returned by `reads()`. -/
def mainAwaitsReads : Bool := awaitsCallOf "reads" mainStmts

/-- try/catch handlers authored anywhere in the module, counting the
`.catch` of the top-level chain. -/
def handlersInModule : Nat :=
  (moduleItems.map (fun it =>
    match it with
    | .funcDef _ body =>
        (body.filter (fun s =>
          match s with
          | .tryCatch _ _ => true
          | _ => false)).length
    | .mainChain _ _ _ => 1
    | _ => 0)).sum

/-! ### Promise-chain semantics

`main().catch(e => { throw e }).finally(async () => { await
prisma.$disconnect(); })` is modelled denotationally: an outcome of the
`main()` promise is mapped through the catch handler, and the `finally`
callback's operations are performed whatever the outcome is. -/

/-- Settled outcome of a promise; errors are abstract tokens. -/
inductive POutcome where
  | ok
  | err (e : Nat)
deriving DecidableEq

/-- The catch handler `(e) => { throw e }`: it re-throws its argument. -/
def catchHandlerJs (e : Nat) : POutcome := .err e

def runCatch (o : POutcome) (h : Nat → POutcome) : POutcome :=
  match o with
  | .ok => .ok
  | .err e => h e

/-- Observable events of a script execution. -/
inductive Ev where
  | dbop (o : DbOp)
  | logged (msg : String)
  | mainFulfilled
deriving DecidableEq

/-- The `.finally` step: its callback's operations run, and the incoming
outcome passes through. -/
def runFinally (o : POutcome) : List Ev × POutcome :=
  ((dbTrace finallyStmts).map Ev.dbop, o)

/-- Events and final outcome of `.catch(e => { throw e }).finally(...)`
applied to an outcome of `main()`. -/
def chainRun (o : POutcome) : List Ev × POutcome :=
  runFinally (runCatch o catchHandlerJs)

/-- The settled outcome of `main()` as a function of the outcome of the
`reads()` promise: `main` only awaits `reads` if its body says so;
otherwise its own promise fulfills regardless. -/
def mainOutcome (readsOutcome : POutcome) : POutcome :=
  if mainAwaitsReads then readsOutcome else .ok

/-- What the catch handler observes of an outcome. -/
def catchObserved (o : POutcome) : Option Nat :=
  match o with
  | .ok => none
  | .err e => some e

/-! ### Interleaving scheduler

Because `main` does not await `reads()`, the pending operations of the
`reads` task run concurrently with the settlement of `main`'s promise and
the `finally` cleanup.  `Step` is the event-step relation; the `settle`
rule is enabled while `reads` is still pending exactly because
`mainAwaitsReads` is `false`. -/

inductive Phase where
  | running
  | settled
  | finished
deriving DecidableEq

structure SState where
  pending : List Stmt
  phase : Phase

inductive Step : SState → Ev → SState → Prop where
  | readDb {c : String} {o : DbOp} {r : List Stmt} {ph : Phase} :
      Step ⟨.dbCall c o :: r, ph⟩ (.dbop o) ⟨r, ph⟩
  | readLog {m : String} {r : List Stmt} {ph : Phase} :
      Step ⟨.log m :: r, ph⟩ (.logged m) ⟨r, ph⟩
  | settle {p : List Stmt} (h : mainAwaitsReads = false ∨ p = []) :
      Step ⟨p, .running⟩ .mainFulfilled ⟨p, .settled⟩
  | cleanup {p : List Stmt} :
      Step ⟨p, .settled⟩ (.dbop .disconnect) ⟨p, .finished⟩

/-- Complete executions: event traces from a state down to the terminal
state (nothing pending, cleanup done). -/
inductive Exec : SState → List Ev → Prop where
  | done : Exec ⟨[], .finished⟩ []
  | step {s s' : SState} {e : Ev} {tr : List Ev} :
      Step s e s' → Exec s' tr → Exec s (e :: tr)

def initState : SState := ⟨readsStmts, .running⟩

/-- Effect of a single operation on the database state: reads and
`$disconnect` leave it unchanged, writes apply their transformer (the
state is kept when the database rejects the statement). -/
def applyOpPure (db : DB) (t : Nat) : DbOp → DB
  | .createOne email name => ((createUser db email name t).map (fun r => r.2)).toOption.getD db
  | .createWithPosts email name posts =>
      (createUserWithPosts db email name posts t).toOption.getD db
  | .createManyRows rows => (createManyUsers db rows t).toOption.getD db
  | _ => db

def applyTrace (db : DB) (t : Nat) : List Ev → DB
  | [] => db
  | .dbop o :: rest => applyTrace (applyOpPure db t o) t rest
  | .logged _ :: rest => applyTrace db t rest
  | .mainFulfilled :: rest => applyTrace db t rest

/-- `true` when no statement of the list issues a write operation. -/
def noWriteStmts (l : List Stmt) : Bool :=
  l.all (fun st =>
    match st with
    | .dbCall _ o => !o.isWrite
    | _ => true)

/-! ### Read-query semantics

The `findMany` call of `reads` filters users to those with some published
post, sorts by `createdAt` descending, then applies `skip` and `take`. -/

/-- `where: { posts: { some: { published: true } } }` for a user. -/
def hasPublishedPost (db : DB) (u : UserRow) : Bool :=
  db.posts.any (fun p => p.authorId == u.id && p.published)

/-- `orderBy: { createdAt: "desc" }` as a relation on rows. -/
def userCreatedDesc (a b : UserRow) : Prop := b.createdAt ≤ a.createdAt

instance : DecidableRel userCreatedDesc := fun a b => Nat.decLe b.createdAt a.createdAt

instance : IsTotal UserRow userCreatedDesc :=
  ⟨fun a b => Nat.le_total b.createdAt a.createdAt⟩

instance : IsTrans UserRow userCreatedDesc :=
  ⟨fun _ _ _ hab hbc => le_trans hbc hab⟩

/-- Result list of `prisma.user.findMany` under the argument shapes the
script uses: optional some-published filter, optional descending
`createdAt` order, then `skip` and `take`. -/
def runFindMany (db : DB) (args : FindManyArgs) : List UserRow :=
  let base :=
    if args.wherePostsSomePublished then db.users.filter (hasPublishedPost db) else db.users
  let sorted :=
    if args.orderByCreatedAtDesc then List.insertionSort userCreatedDesc base else base
  (sorted.drop args.skipN).take args.takeN

/-- The arguments `reads` passes to `findMany`. -/
def readsFindManyArgs : FindManyArgs :=
  { wherePostsSomePublished := true
    includePosts := true
    includeProfile := true
    orderByCreatedAtDesc := true
    takeN := 10
    skipN := 20 }

/-! ### Concrete states and traces used to instantiate the theorems -/

/-- Names bound by `const ... = new PrismaClient()` at module level. -/
def clientDecls : List String :=
  moduleItems.filterMap (fun it =>
    match it with
    | .constClient n => some n
    | _ => none)

/-- A small admissible state: one user owning one profile and one
published post carrying one tag. -/
def dbP : DB :=
  { users := [⟨1, "alice@example.com", some "Alice Smith", 0, 0⟩]
    profiles := [⟨1, none, none, 1⟩]
    posts := [⟨1, "My First Post", some "Hello World!", true, 0, 0, 1⟩]
    tags := [⟨1, "intro"⟩]
    postTags := [(1, 1)] }

/-- A state with 25 users, each with one published post, so that the
`skip: 20` page of the `findMany` call is non-empty. -/
def dbBig : DB :=
  { users := (List.range 25).map (fun i => ⟨i + 1, toString (i + 1), none, 0, 0⟩)
    profiles := []
    posts := (List.range 25).map (fun i => ⟨i + 1, "post", none, true, 0, 0, i + 1⟩)
    tags := []
    postTags := [] }

/-- The trace where the `reads` operations all complete before `main`'s
promise settles and the `finally` cleanup runs. -/
def trNormal : List Ev :=
  [ .dbop (.findUniqueUserByEmail "alice@example.com")
  , .logged "User found:"
  , .dbop (.findFirstUserByNameContains "Alice")
  , .dbop (.findManyUsers readsFindManyArgs)
  , .dbop .countUsersWithSomePublished
  , .mainFulfilled
  , .dbop .disconnect ]

/-- The trace where `main` settles and the cleanup disconnects before any
operation of `reads` completes. -/
def trEager : List Ev :=
  [ .mainFulfilled
  , .dbop .disconnect
  , .dbop (.findUniqueUserByEmail "alice@example.com")
  , .logged "User found:"
  , .dbop (.findFirstUserByNameContains "Alice")
  , .dbop (.findManyUsers readsFindManyArgs)
  , .dbop .countUsersWithSomePublished ]

/-! ### Helper lemmas -/

theorem le_foldr_max {x : Nat} {l : List Nat} (h : x ∈ l) : x ≤ l.foldr max 0 := by
  induction l with
  | nil => cases h
  | cons a l ih =>
      rcases List.mem_cons.mp h with rfl | h2
      · exact le_max_left _ _
      · exact le_trans (ih h2) (le_max_right _ _)

theorem freshId_not_mem (l : List Nat) : freshId l ∉ l := by
  intro hmem
  have h := le_foldr_max hmem
  simp only [freshId] at h
  omega

theorem nodup_append_singleton {α : Type} {l : List α} {a : α}
    (h : l.Nodup) (ha : a ∉ l) : (l ++ [a]).Nodup :=
  h.append (List.nodup_singleton a)
    (fun _ hx hx2 => ha ((List.mem_singleton.mp hx2) ▸ hx))

theorem filter_eq_length_le_one {α β : Type} [DecidableEq β] {f : α → β} {l : List α}
    (h : (l.map f).Nodup) (k : β) :
    (l.filter (fun x => f x == k)).length ≤ 1 := by
  induction l with
  | nil => simp
  | cons a l ih =>
      simp only [List.map_cons, List.nodup_cons] at h
      obtain ⟨hna, hnd⟩ := h
      by_cases hk : f a == k
      · have hnil : l.filter (fun x => f x == k) = [] := by
          rw [List.filter_eq_nil_iff]
          intro x hx hfx
          apply hna
          have h1 : f x = k := by simpa using hfx
          have h2 : f a = k := by simpa using hk
          rw [h2, ← h1]
          exact List.mem_map_of_mem f hx
        simp [List.filter_cons, hk, hnil]
      · simpa [List.filter_cons, hk] using ih hnd

/-- Characterization of a successful `create`. -/
theorem createUser_ok {db : DB} {email : String} {name : Option String} {t : Nat}
    {u : UserRow} {db' : DB}
    (h : createUser db email name t = .ok (u, db')) :
    u = ⟨freshId (db.users.map UserRow.id), email, name, t, t⟩ ∧
    db' = { db with users := db.users ++ [u] } ∧
    email ∉ db.users.map UserRow.email := by
  unfold createUser at h
  by_cases hc : db.users.any (fun u => u.email == email)
  · simp [hc] at h
  · simp only [hc, Bool.false_eq_true, if_false, Except.ok.injEq, Prod.mk.injEq] at h
    obtain ⟨hu, hdb⟩ := h
    subst hu
    refine ⟨rfl, hdb.symm ▸ rfl, ?_⟩
    simp only [List.any_eq_true, beq_iff_eq, not_exists, not_and] at hc
    simp only [List.mem_map, not_exists, not_and]
    intro x hx he
    exact hc x hx he

theorem createUser_admissible {db : DB} {email : String} {name : Option String}
    {t : Nat} {u : UserRow} {db' : DB}
    (hA : Admissible db) (h : createUser db email name t = .ok (u, db')) :
    Admissible db' := by
  obtain ⟨hu, hdb, hem⟩ := createUser_ok h
  obtain ⟨A1, A2, A3, A4, A5, A6, A7, A8, A9, A10⟩ := hA
  subst hdb
  refine ⟨?_, ?_, A3, A4, ?_, A6, ?_, A8, A9, A10⟩
  · simp only [List.map_append, List.map_cons, List.map_nil]
    refine nodup_append_singleton A1 ?_
    rw [hu]
    exact freshId_not_mem _
  · simp only [List.map_append, List.map_cons, List.map_nil]
    refine nodup_append_singleton A2 ?_
    rw [hu]
    exact hem
  · intro p hp
    obtain ⟨w, hw, he⟩ := A5 p hp
    exact ⟨w, List.mem_append_left _ hw, he⟩
  · intro p hp
    obtain ⟨w, hw, he⟩ := A7 p hp
    exact ⟨w, List.mem_append_left _ hw, he⟩

theorem createUser_users {db : DB} {email : String} {name : Option String}
    {t : Nat} {u : UserRow} {db' : DB}
    (h : createUser db email name t = .ok (u, db')) :
    db'.users = db.users ++ [u] := by
  obtain ⟨_, hdb, _⟩ := createUser_ok h
  rw [hdb]

theorem insertPost_users (db : DB) (title : String) (content : Option String)
    (published : Option Bool) (authorId t : Nat) :
    (insertPost db title content published authorId t).users = db.users := rfl

theorem insertPost_admissible {db : DB} {title : String} {content : Option String}
    {published : Option Bool} {authorId t : Nat}
    (hA : Admissible db) (ha : ∃ u ∈ db.users, u.id = authorId) :
    Admissible (insertPost db title content published authorId t) := by
  obtain ⟨A1, A2, A3, A4, A5, A6, A7, A8, A9, A10⟩ := hA
  refine ⟨A1, A2, A3, A4, A5, ?_, ?_, A8, A9, ?_⟩
  · simp only [insertPost, List.map_append, List.map_cons, List.map_nil]
    exact nodup_append_singleton A6 (freshId_not_mem _)
  · intro p hp
    simp only [insertPost] at hp
    rcases List.mem_append.mp hp with h1 | h2
    · exact A7 p h1
    · rw [List.mem_singleton.mp h2]
      exact ha
  · intro pt hpt
    obtain ⟨⟨p, hp, he⟩, ht⟩ := A10 pt hpt
    exact ⟨⟨p, List.mem_append_left _ hp, he⟩, ht⟩

theorem foldl_insertPost_admissible (posts : List (String × Option String))
    {db : DB} {authorId t : Nat}
    (hA : Admissible db) (ha : ∃ u ∈ db.users, u.id = authorId) :
    Admissible (posts.foldl (fun acc pd => insertPost acc pd.1 pd.2 none authorId t) db) := by
  induction posts generalizing db with
  | nil => exact hA
  | cons pd ps ih =>
      simp only [List.foldl_cons]
      exact ih (insertPost_admissible hA ha) (by rw [insertPost_users]; exact ha)

theorem createUserWithPosts_admissible {db : DB} {email : String}
    {name : Option String} {posts : List (String × Option String)} {t : Nat} {db' : DB}
    (hA : Admissible db) (h : createUserWithPosts db email name posts t = .ok db') :
    Admissible db' := by
  unfold createUserWithPosts at h
  cases hres : createUser db email name t with
  | error e => rw [hres] at h; cases h
  | ok r =>
      obtain ⟨u, db1⟩ := r
      rw [hres] at h
      simp only [Except.ok.injEq] at h
      subst h
      refine foldl_insertPost_admissible posts (createUser_admissible hA hres) ?_
      refine ⟨u, ?_, rfl⟩
      rw [createUser_users hres]
      exact List.mem_append_right _ (List.mem_singleton.mpr rfl)

theorem createManyUsers_admissible (rows : List (String × Option String))
    {db : DB} {t : Nat} {db' : DB}
    (hA : Admissible db) (h : createManyUsers db rows t = .ok db') :
    Admissible db' := by
  induction rows generalizing db with
  | nil =>
      simp only [createManyUsers, Except.ok.injEq] at h
      exact h ▸ hA
  | cons r rs ih =>
      simp only [createManyUsers] at h
      cases hres : createUser db r.1 r.2 t with
      | error e => rw [hres] at h; cases h
      | ok p =>
          rw [hres] at h
          exact ih (createUser_admissible hA hres) h

theorem applyWrite_admissible {db : DB} {t : Nat} {w : WriteOp} {db' : DB}
    (hA : Admissible db) (h : applyWrite db t w = .ok db') : Admissible db' := by
  cases w with
  | createOne email name =>
      simp only [applyWrite, Except.map] at h
      cases hres : createUser db email name t with
      | error e => rw [hres] at h; cases h
      | ok r =>
          rw [hres] at h
          simp only [Except.ok.injEq] at h
          exact h ▸ createUser_admissible hA hres
  | createWithPosts email name posts => exact createUserWithPosts_admissible hA h
  | createManyRows rows => exact createManyUsers_admissible rows hA h

theorem applyOpPure_admissible {db : DB} {t : Nat} (o : DbOp)
    (hA : Admissible db) : Admissible (applyOpPure db t o) := by
  cases o with
  | createOne email name =>
      simp only [applyOpPure]
      cases hres : (createUser db email name t).map (fun r => r.2) with
      | error e => simpa [hres, Except.toOption] using hA
      | ok d =>
          simp only [hres, Except.toOption, Option.getD_some]
          simp only [Except.map] at hres
          cases hres2 : createUser db email name t with
          | error e => rw [hres2] at hres; cases hres
          | ok r =>
              rw [hres2] at hres
              simp only [Except.ok.injEq] at hres
              exact hres ▸ createUser_admissible hA hres2
  | createWithPosts email name posts =>
      simp only [applyOpPure]
      cases hres : createUserWithPosts db email name posts t with
      | error e => simpa [Except.toOption] using hA
      | ok d =>
          simp only [Except.toOption, Option.getD_some]
          exact createUserWithPosts_admissible hA hres
  | createManyRows rows =>
      simp only [applyOpPure]
      cases hres : createManyUsers db rows t with
      | error e => simpa [Except.toOption] using hA
      | ok d =>
          simp only [Except.toOption, Option.getD_some]
          exact createManyUsers_admissible rows hA hres
  | findUniqueUserByEmail e => exact hA
  | findFirstUserByNameContains s => exact hA
  | findManyUsers args => exact hA
  | countUsersWithSomePublished => exact hA
  | disconnect => exact hA

/-- Unique row with a given primary key, from `Nodup` of the key column. -/
theorem author_exists_unique {db : DB} (hA : Admissible db) {p : PostRow}
    (hp : p ∈ db.posts) : ∃! u : UserRow, u ∈ db.users ∧ u.id = p.authorId := by
  obtain ⟨A1, _, _, _, _, _, A7, _, _, _⟩ := hA
  obtain ⟨u, hu, he⟩ := A7 p hp
  refine ⟨u, ⟨hu, he⟩, ?_⟩
  intro v ⟨hv, hev⟩
  exact List.inj_on_of_nodup_map A1 hv hu (by rw [he, hev])

/-! ### Scheduler lemmas -/

/-- Every complete execution that has not already cleaned up performs the
disconnect. -/
theorem exec_disconnect_of_not_finished :
    ∀ {s : SState} {tr : List Ev}, Exec s tr → s.phase ≠ .finished →
      Ev.dbop .disconnect ∈ tr := by
  intro s tr h
  induction h with
  | done => intro hne; exact absurd rfl hne
  | step hstep _ ih =>
      intro hne
      cases hstep with
      | readDb => exact List.mem_cons_of_mem _ (ih hne)
      | readLog => exact List.mem_cons_of_mem _ (ih hne)
      | settle h => exact List.mem_cons_of_mem _ (ih (by intro hc; cases hc))
      | cleanup => exact List.mem_cons_self _ _

/-- Database operations performed by an execution either come from the
pending statements (all reads here) or are the cleanup disconnect. -/
theorem exec_no_writes :
    ∀ {s : SState} {tr : List Ev}, Exec s tr →
      noWriteStmts s.pending = true →
      ∀ o, Ev.dbop o ∈ tr → DbOp.isWrite o = false := by
  intro s tr hex
  induction hex with
  | done => intro _ o ho; cases ho
  | step hstep _ ih =>
      intro hp o ho
      cases hstep with
      | readDb =>
          simp only [noWriteStmts, List.all_cons, Bool.and_eq_true] at hp
          rcases List.mem_cons.mp ho with he | ht
          · cases he
            simpa using hp.1
          · exact ih hp.2 o ht
      | readLog =>
          simp only [noWriteStmts, List.all_cons, Bool.and_eq_true] at hp
          rcases List.mem_cons.mp ho with he | ht
          · cases he
          · exact ih hp.2 o ht
      | settle h =>
          rcases List.mem_cons.mp ho with he | ht
          · cases he
          · exact ih hp o ht
      | cleanup =>
          rcases List.mem_cons.mp ho with he | ht
          · cases he; rfl
          · exact ih hp o ht

/-- A trace whose operations are all reads leaves any database state
unchanged. -/
theorem applyTrace_id : ∀ {tr : List Ev},
    (∀ o, Ev.dbop o ∈ tr → DbOp.isWrite o = false) →
    ∀ (db : DB) (t : Nat), applyTrace db t tr = db := by
  intro tr
  induction tr with
  | nil => intro _ db t; rfl
  | cons e rest ih =>
      intro h db t
      cases e with
      | dbop o =>
          have hw := h o (List.mem_cons_self _ _)
          have hid : applyOpPure db t o = db := by
            cases o <;> first
              | rfl
              | simp [DbOp.isWrite] at hw
          rw [applyTrace, hid]
          exact ih (fun o2 h2 => h o2 (List.mem_cons_of_mem _ h2)) db t
      | logged m =>
          rw [applyTrace]
          exact ih (fun o2 h2 => h o2 (List.mem_cons_of_mem _ h2)) db t
      | mainFulfilled =>
          rw [applyTrace]
          exact ih (fun o2 h2 => h o2 (List.mem_cons_of_mem _ h2)) db t

/-- The late-cleanup execution: all of `reads` completes, then `main`
settles and the cleanup runs. -/
theorem exec_trNormal : Exec initState trNormal := by
  show Exec ⟨[ .dbCall "prisma" (.findUniqueUserByEmail "alice@example.com")
             , .log "User found:"
             , .dbCall "prisma" (.findFirstUserByNameContains "Alice")
             , .dbCall "prisma" (.findManyUsers readsFindManyArgs)
             , .dbCall "prisma" .countUsersWithSomePublished ], .running⟩ trNormal
  exact Exec.step Step.readDb (Exec.step Step.readLog (Exec.step Step.readDb
    (Exec.step Step.readDb (Exec.step Step.readDb
      (Exec.step (Step.settle (Or.inl rfl)) (Exec.step Step.cleanup Exec.done))))))

/-- The eager-cleanup execution: `main` settles and the cleanup
disconnects while all four read operations are still pending. -/
theorem exec_trEager : Exec initState trEager := by
  show Exec ⟨[ .dbCall "prisma" (.findUniqueUserByEmail "alice@example.com")
             , .log "User found:"
             , .dbCall "prisma" (.findFirstUserByNameContains "Alice")
             , .dbCall "prisma" (.findManyUsers readsFindManyArgs)
             , .dbCall "prisma" .countUsersWithSomePublished ], .running⟩ trEager
  exact Exec.step (Step.settle (Or.inl rfl)) (Exec.step Step.cleanup
    (Exec.step Step.readDb (Exec.step Step.readLog (Exec.step Step.readDb
      (Exec.step Step.readDb (Exec.step Step.readDb Exec.done))))))

/-! ### Claim theorems -/

/-- Claim C1: the program constructs exactly one client handle, at module
load before the `main()` chain runs; every client call in the script goes
through that handle; and the handle is released by a `$disconnect` placed
in the `finally` callback, which executes in every outcome of `main` —
both outcomes of the promise chain perform it, and every complete
scheduled execution contains it. -/
theorem single_client_lifecycle :
    clientDecls = ["prisma"] ∧
    moduleItems.findIdx (fun it =>
        match it with
        | .constClient _ => true
        | _ => false) <
      moduleItems.findIdx (fun it =>
        match it with
        | .mainChain _ _ _ => true
        | _ => false) ∧
    ((readsStmts ++ writesStmts ++ mainStmts ++ finallyStmts).all (usesClient "prisma")) = true ∧
    dbTrace finallyStmts = [.disconnect] ∧
    (∀ o : POutcome, Ev.dbop .disconnect ∈ (chainRun o).1) ∧
    (∀ tr : List Ev, Exec initState tr → Ev.dbop .disconnect ∈ tr) := by
  refine ⟨rfl, by decide, rfl, rfl, fun o => ?_,
    fun tr h => exec_disconnect_of_not_finished h (by decide)⟩
  cases o <;> simp [chainRun, runFinally, dbTrace, finallyStmts]

/-- Witness for C1: the execution in which `reads` completes first
contains the disconnect. -/
theorem single_client_lifecycle_witness : Ev.dbop DbOp.disconnect ∈ trNormal :=
  single_client_lifecycle.2.2.2.2.2 trNormal exec_trNormal

/-- Claim C2: `reads` issues, in order, exactly a `findUnique` on email,
a `findFirst`, a `findMany` with where/include/orderBy/take/skip, and a
`count`; `writes` issues, in order, exactly a `create`, a `create` with
nested posts, and a `createMany`; both bodies are straight-line — no
branch, try/catch or retry construct, and no further calls — so every
execution issues the same operation sequence. -/
theorem example_scripts_direct_ops :
    dbTrace readsStmts =
      [ .findUniqueUserByEmail "alice@example.com"
      , .findFirstUserByNameContains "Alice"
      , .findManyUsers readsFindManyArgs
      , .countUsersWithSomePublished ] ∧
    dbTrace writesStmts =
      [ .createOne "alice@example.com" (some "Alice Smith")
      , .createWithPosts "bob@example.com" (some "Bob Johnson")
          [ ("My First Post", some "Hello World!")
          , ("Second Post", some "Learning Prisma") ]
      , .createManyRows
          [ ("user1@example.com", some "User 1")
          , ("user2@example.com", some "User 2") ] ] ∧
    straightLine readsStmts = true ∧
    straightLine writesStmts = true ∧
    calledFns readsStmts = [] ∧
    calledFns writesStmts = [] :=
  ⟨rfl, rfl, rfl, rfl, rfl, rfl⟩

/-- Claim C3: the catch handler re-throws its argument unchanged, the
chain's final outcome equals `main`'s outcome (errors propagate out), the
disconnect runs in both outcomes, and the one `.catch` of the top-level
chain is the only error-handling construct in the module — both function
bodies are straight-line. -/
theorem rethrow_only_error_handling :
    (∀ e : Nat, catchHandlerJs e = .err e) ∧
    (∀ o : POutcome, runCatch o catchHandlerJs = o) ∧
    (∀ o : POutcome, (chainRun o).2 = o) ∧
    (∀ o : POutcome, Ev.dbop .disconnect ∈ (chainRun o).1) ∧
    handlersInModule = 1 ∧
    straightLine readsStmts = true ∧
    straightLine writesStmts = true ∧
    straightLine mainStmts = true := by
  refine ⟨fun e => rfl, fun o => ?_, fun o => ?_, fun o => ?_, rfl, rfl, rfl, rfl⟩
  · cases o <;> rfl
  · cases o <;> rfl
  · cases o <;> simp [chainRun, runFinally, dbTrace, finallyStmts]

/-- Claim C8: `main` does not await `reads()`, so `main`'s promise
fulfills whatever the outcome of `reads` is; a rejection inside `reads`
is therefore never observed by the top-level catch handler; and the
scheduler admits a complete execution in which the `finally` disconnect
runs before any of the four read operations completes. -/
theorem reads_unawaited :
    mainAwaitsReads = false ∧
    (∀ ro : POutcome, mainOutcome ro = .ok) ∧
    (∀ e : Nat, catchObserved (mainOutcome (.err e)) = none) ∧
    (∀ p : List Stmt, Step ⟨p, .running⟩ .mainFulfilled ⟨p, .settled⟩) ∧
    (∃ post : List Ev,
       Exec initState (.mainFulfilled :: .dbop .disconnect :: post)) := by
  refine ⟨rfl, fun ro => rfl, fun e => rfl, fun p => Step.settle (Or.inl rfl), ?_⟩
  refine ⟨[ .dbop (.findUniqueUserByEmail "alice@example.com")
          , .logged "User found:"
          , .dbop (.findFirstUserByNameContains "Alice")
          , .dbop (.findManyUsers readsFindManyArgs)
          , .dbop .countUsersWithSomePublished ], ?_⟩
  exact exec_trEager

/-- Claim C9: `main` calls only `reads`; every database operation of every
complete execution is a read (no create/createMany/update/delete is ever
issued), and consequently every execution leaves any database state
unchanged. -/
theorem writes_never_invoked :
    calledFns mainStmts = ["reads"] ∧
    (∀ tr : List Ev, Exec initState tr →
       ∀ o : DbOp, Ev.dbop o ∈ tr → DbOp.isWrite o = false) ∧
    (∀ tr : List Ev, Exec initState tr →
       ∀ (db : DB) (t : Nat), applyTrace db t tr = db) := by
  refine ⟨rfl, ?_, ?_⟩
  · intro tr h o ho
    exact exec_no_writes h (by decide) o ho
  · intro tr h db t
    exact applyTrace_id (fun o ho => exec_no_writes h (by decide) o ho) db t

/-- Witness for C9: in the concrete execution `trNormal`, the first read
is not a write, and replaying the whole trace leaves `dbP` unchanged. -/
theorem writes_never_invoked_witness :
    DbOp.isWrite (.findUniqueUserByEmail "alice@example.com") = false ∧
    applyTrace dbP 0 trNormal = dbP :=
  ⟨writes_never_invoked.2.1 trNormal exec_trNormal _ (by decide),
   writes_never_invoked.2.2 trNormal exec_trNormal dbP 0⟩

/-- Claim C4: in every admissible state no two User rows share an email
and no two Tag rows share a name, and both invariants are preserved by
every operation of the script (reads leave the state unchanged; each
write either is rejected by the database's unique constraints or yields
an admissible state again). -/
theorem unique_email_and_tagname :
    (∀ db : DB, Admissible db →
       (db.users.map UserRow.email).Nodup ∧ (db.tags.map TagRow.name).Nodup) ∧
    (∀ (db : DB) (t : Nat) (o : DbOp), Admissible db → Admissible (applyOpPure db t o)) ∧
    (∀ (db : DB) (t : Nat) (w : WriteOp) (db' : DB),
       Admissible db → applyWrite db t w = .ok db' → Admissible db') :=
  ⟨fun _ hA => ⟨hA.2.1, hA.2.2.2.2.2.2.2.2.1⟩,
   fun _ _ o hA => applyOpPure_admissible o hA,
   fun _ _ _ _ hA h => applyWrite_admissible hA h⟩

/-- Witness for C4: the uniqueness columns of `dbP` are duplicate-free,
applying a create keeps admissibility, and a concrete successful
`applyWrite` lands in an admissible state. -/
theorem unique_email_and_tagname_witness :
    ((dbP.users.map UserRow.email).Nodup ∧ (dbP.tags.map TagRow.name).Nodup) ∧
    Admissible (applyOpPure dbP 0 (.createOne "bob@example.com" (some "Bob Johnson"))) ∧
    Admissible (DB.mk [⟨1, "alice@example.com", some "Alice Smith", 0, 0⟩] [] [] [] []) :=
  ⟨unique_email_and_tagname.1 dbP (by decide),
   unique_email_and_tagname.2.1 dbP 0 _ (by decide),
   unique_email_and_tagname.2.2 (DB.mk [] [] [] [] []) 0
     (.createOne "alice@example.com" (some "Alice Smith")) _ (by decide) rfl⟩

/-- Claim C5: the schema gives `Profile.userId` a unique constraint and a
relation to exactly one `User` by its id, and in every admissible state
the profiles inject into the users: there is an injective map sending
each Profile row to the User row its foreign key references. -/
theorem profile_one_to_one :
    ((findField profileModel "userId").map (fun f => (f.isUnique, f.ftype)) =
       some (true, .scalar .int)) ∧
    ((findField profileModel "user").map
        (fun f => (f.ftype, f.relFields, f.relReferences, f.optional)) =
       some (.toOne "User", ["userId"], ["id"], false)) ∧
    (∀ db : DB, Admissible db →
       ∃ f : {p // p ∈ db.profiles} → {u // u ∈ db.users},
         Function.Injective f ∧ ∀ p, (f p).val.id = p.val.userId) := by
  refine ⟨rfl, rfl, ?_⟩
  intro db hA
  obtain ⟨A1, A2, A3, A4, A5, _⟩ := hA
  have hex : ∀ p : {p // p ∈ db.profiles},
      ∃ u, u ∈ db.users ∧ u.id = p.val.userId := by
    intro p
    obtain ⟨u, hu, he⟩ := A5 p.val p.property
    exact ⟨u, hu, he⟩
  refine ⟨fun p =>
    ⟨List.choose (fun u => u.id = p.val.userId) db.users (hex p),
     List.choose_mem _ _ _⟩, ?_, ?_⟩
  · intro p1 p2 hf
    have h1 : (List.choose (fun u => u.id = p1.val.userId) db.users (hex p1)).id
        = p1.val.userId :=
      List.choose_property (fun u => u.id = p1.val.userId) db.users (hex p1)
    have h2 : (List.choose (fun u => u.id = p2.val.userId) db.users (hex p2)).id
        = p2.val.userId :=
      List.choose_property (fun u => u.id = p2.val.userId) db.users (hex p2)
    have heq : p1.val.userId = p2.val.userId := by
      rw [← h1, ← h2]
      exact congrArg (fun u => UserRow.id u.val) hf
    exact Subtype.ext (List.inj_on_of_nodup_map A4 p1.property p2.property heq)
  · intro p
    exact List.choose_property (fun u => u.id = p.val.userId) db.users (hex p)

/-- Witness for C5: the injection exists for the concrete state `dbP`. -/
theorem profile_one_to_one_witness :
    ∃ f : {p // p ∈ dbP.profiles} → {u // u ∈ dbP.users},
      Function.Injective f ∧ ∀ p, (f p).val.id = p.val.userId :=
  profile_one_to_one.2.2 dbP (by decide)

/-- Claim C6: the declared Post has a unique autoincremented id, a
required title, optional content, a `published` flag defaulting to
`false`, `now()` creation and `@updatedAt` update timestamps, a required
relation to exactly one authoring User through `authorId`, and a
many-to-many association with Tag (list fields on both sides); a post row
built without an explicit `published` value has `published = false`, and
in every admissible state each post has exactly one author. -/
theorem post_entity_shape :
    ((findField postModel "id").map (fun f => (f.isId, f.defaultAutoincrement)) =
       some (true, true)) ∧
    ((findField postModel "title").map (fun f => (f.optional, isScalarField f)) =
       some (false, true)) ∧
    ((findField postModel "content").map (fun f => (f.optional, isScalarField f)) =
       some (true, true)) ∧
    ((findField postModel "published").map (fun f => (f.ftype, f.defaultBool, f.optional)) =
       some (.scalar .boolean, some false, false)) ∧
    ((findField postModel "createdAt").map (fun f => f.defaultNow) = some true) ∧
    ((findField postModel "updatedAt").map (fun f => f.isUpdatedAtAttr) = some true) ∧
    ((findField postModel "author").map
        (fun f => (f.ftype, f.relFields, f.relReferences, f.optional)) =
       some (.toOne "User", ["authorId"], ["id"], false)) ∧
    ((findField postModel "tags").map (fun f => f.ftype) = some (.toMany "Tag")) ∧
    ((findField tagModel "posts").map (fun f => f.ftype) = some (.toMany "Post")) ∧
    (∀ (id : Nat) (title : String) (content : Option String) (authorId t : Nat),
       (mkPost id title content none authorId t).published = false) ∧
    (∀ db : DB, Admissible db → ∀ p ∈ db.posts,
       ∃! u : UserRow, u ∈ db.users ∧ u.id = p.authorId) :=
  ⟨rfl, rfl, rfl, rfl, rfl, rfl, rfl, rfl, rfl,
   fun _ _ _ _ _ => rfl,
   fun _ hA _ hp => author_exists_unique hA hp⟩

/-- Witness for C6: in `dbP`, the post's author is unique. -/
theorem post_entity_shape_witness :
    ∃! u : UserRow, u ∈ dbP.users ∧
      u.id = (⟨1, "My First Post", some "Hello World!", true, 0, 0, 1⟩ : PostRow).authorId :=
  post_entity_shape.2.2.2.2.2.2.2.2.2.2 dbP (by decide) _ (by decide)

/-- Claim C7: the declared User has a unique autoincremented id, a unique
required email, an optional name, `now()` creation and `@updatedAt`
update timestamps, a list of Posts and an optional Profile; `name` is the
only optional scalar field; and in every admissible state no user has
more than one profile. -/
theorem user_entity_shape :
    ((findField userModel "id").map (fun f => (f.isId, f.defaultAutoincrement)) =
       some (true, true)) ∧
    ((findField userModel "email").map (fun f => (f.isUnique, f.optional, isScalarField f)) =
       some (true, false, true)) ∧
    ((findField userModel "name").map (fun f => (f.optional, isScalarField f)) =
       some (true, true)) ∧
    ((findField userModel "createdAt").map (fun f => f.defaultNow) = some true) ∧
    ((findField userModel "updatedAt").map (fun f => f.isUpdatedAtAttr) = some true) ∧
    ((findField userModel "posts").map (fun f => f.ftype) = some (.toMany "Post")) ∧
    ((findField userModel "profile").map (fun f => (f.ftype, f.optional)) =
       some (.toOne "Profile", true)) ∧
    ((userModel.fields.filter (fun f => f.optional && isScalarField f)).map
        (fun f => f.fname) = ["name"]) ∧
    (∀ db : DB, Admissible db → ∀ uid : Nat,
       (db.profiles.filter (fun p => p.userId == uid)).length ≤ 1) :=
  ⟨rfl, rfl, rfl, rfl, rfl, rfl, rfl, rfl,
   fun _ hA uid => filter_eq_length_le_one hA.2.2.2.1 uid⟩

/-- Witness for C7: in `dbP` user 1 has at most one profile. -/
theorem user_entity_shape_witness :
    (dbP.profiles.filter (fun p => p.userId == 1)).length ≤ 1 :=
  user_entity_shape.2.2.2.2.2.2.2.2 dbP (by decide) 1

/-- Claim C10: for every database state, the `findMany` of `reads`
returns at most 10 users; every returned user has some published post;
the result is in descending `createdAt` order; and it is exactly the page
obtained by dropping the first 20 of the sorted filtered users and taking
the next 10. -/
theorem findMany_pagination (db : DB) :
    (runFindMany db readsFindManyArgs).length ≤ 10 ∧
    (∀ u ∈ runFindMany db readsFindManyArgs,
       ∃ p ∈ db.posts, p.authorId = u.id ∧ p.published = true) ∧
    List.Sorted userCreatedDesc (runFindMany db readsFindManyArgs) ∧
    (∃ l : List UserRow, l.Perm (db.users.filter (hasPublishedPost db)) ∧
       List.Sorted userCreatedDesc l ∧
       runFindMany db readsFindManyArgs = (l.drop 20).take 10) := by
  have hrun : runFindMany db readsFindManyArgs =
      ((List.insertionSort userCreatedDesc
          (db.users.filter (hasPublishedPost db))).drop 20).take 10 := by
    simp [runFindMany, readsFindManyArgs]
  have hsub : List.Sublist (runFindMany db readsFindManyArgs)
      (List.insertionSort userCreatedDesc (db.users.filter (hasPublishedPost db))) := by
    rw [hrun]
    exact (List.take_sublist _ _).trans (List.drop_sublist _ _)
  refine ⟨?_, ?_, ?_, ?_⟩
  · rw [hrun]
    exact List.length_take_le _ _
  · intro u hu
    have h1 := hsub.subset hu
    have h2 : u ∈ db.users.filter (hasPublishedPost db) :=
      (List.perm_insertionSort userCreatedDesc _).subset h1
    have h3 := List.of_mem_filter h2
    simp only [hasPublishedPost, List.any_eq_true, Bool.and_eq_true, beq_iff_eq] at h3
    obtain ⟨p, hp, hpa, hpub⟩ := h3
    exact ⟨p, hp, hpa, hpub⟩
  · exact (List.sorted_insertionSort userCreatedDesc _).sublist hsub
  · exact ⟨List.insertionSort userCreatedDesc (db.users.filter (hasPublishedPost db)),
      List.perm_insertionSort _ _, List.sorted_insertionSort _ _, hrun⟩

/-- Witness for C10: user 21 of `dbBig` is on the returned page, and the
theorem yields its published post. -/
theorem findMany_pagination_witness :
    ∃ p ∈ dbBig.posts, p.authorId = (⟨21, "21", none, 0, 0⟩ : UserRow).id ∧
      p.published = true :=
  (findMany_pagination dbBig).2.1 ⟨21, "21", none, 0, 0⟩ (by decide)

end Prisma
